import Mathlib

/-! Shallow embedding of the stlconverter repository (modules
`conversion.py` and `input_handling.py`), with theorems checking the
specification's claims against it.

Conventions:
* a Python `bytes` value is a `List Nat` of byte values;
* a Python `str` is a `List Char`;
* a fallible Python expression (one that can raise) is an `Option`;
* an IEEE-754 single-precision float obtained from `struct.unpack` with
  format `<f` is represented by its 32-bit pattern assembled
  little-endian; the float is a fixed bijective reinterpretation of that
  pattern, so statements about byte layout are unaffected.
-/

namespace STLC

/-- Python `bytes`: a list of byte values. -/
abbrev Bytes := List Nat

/-- Python string: a list of characters. -/
abbrev PyStr := List Char

/-- Python slice `l[a:b]` for nonnegative bounds: clamped to the list,
never raising. -/
def pySlice {α : Type} (l : List α) (a b : Nat) : List α :=
  (l.take b).drop a

/-- Python `range(a, b, step)` for a positive step. -/
def pyRange (a b step : Nat) : List Nat :=
  (List.range ((b - a + step - 1) / step)).map (fun k => a + k * step)

/-- Collect the values of a generator expression whose elements may
raise: the whole expression raises (`none`) as soon as one element does. -/
def optList {α : Type} : List (Option α) → Option (List α)
  | [] => some []
  | none :: _ => none
  | some x :: rest =>
    match optList rest with
    | none => none
    | some xs => some (x :: xs)

namespace ByteConversion

/-- `struct.unpack` with format `<f`: requires exactly 4 bytes, raising
`struct.error` (here: `none`) otherwise; the resulting IEEE-754 single is
represented by its 32-bit little-endian-assembled pattern. -/
def bytes_to_real32 (byte_quad : Bytes) : Option Nat :=
  if byte_quad.length = 4 then
    some (byte_quad.getD 0 0 + 256 * byte_quad.getD 1 0 +
      65536 * byte_quad.getD 2 0 + 16777216 * byte_quad.getD 3 0)
  else none

/-- `ByteConversion.byte_coord_to_real32`: one `bytes_to_real32` per
4-byte slice of the input, over `range(0, len(byte_coord), 4)`; a raise
anywhere makes the whole expression raise. -/
def byte_coord_to_real32 (byte_coord : Bytes) : Option (List Nat) :=
  optList ((pyRange 0 byte_coord.length 4).map
    (fun i => bytes_to_real32 (pySlice byte_coord i (i + 4))))

/-- `int.from_bytes(byte_data, "little")`: total, 0 on the empty string. -/
def bytes_to_uint (byte_data : Bytes) : Nat :=
  byte_data.foldr (fun b acc => b + 256 * acc) 0

end ByteConversion

namespace BinarySTLTriangle

/-- `BinarySTLTriangle.normal`: `byte_coord_to_real32(byte_data[:12])`. -/
def normal (byte_data : Bytes) : Option (List Nat) :=
  ByteConversion.byte_coord_to_real32 (pySlice byte_data 0 12)

/-- `BinarySTLTriangle.vertices`: `byte_coord_to_real32(byte_data[i:i+12])`
for `i in range(12, 48, 12)` (step `= 36 - 24`). -/
def vertices (byte_data : Bytes) : Option (List (List Nat)) :=
  optList ((pyRange 12 48 12).map
    (fun i => ByteConversion.byte_coord_to_real32 (pySlice byte_data i (i + 12))))

/-- `BinarySTLTriangle.attribute_byte_count`:
`bytes_to_uint(byte_data[48:50])`. -/
def attribute_byte_count (byte_data : Bytes) : Nat :=
  ByteConversion.bytes_to_uint (pySlice byte_data 48 50)

end BinarySTLTriangle

/-- Python `str.strip` / `bytes.strip` semantics: remove, from BOTH ends,
the characters satisfying `p`. -/
def stripEnds {α : Type} (p : α → Bool) (l : List α) : List α :=
  ((l.dropWhile p).reverse.dropWhile p).reverse

namespace BinarySTL

/-- `bytes.decode("ASCII")` (strict): raises on any byte above 127; the
decoded string is represented by its code points. -/
def decodeASCII (l : Bytes) : Option Bytes :=
  if l.all (fun b => b < 128) then some l else none

/-- `BinarySTL.header`: `byte_data[:80].strip(b"\x00").decode("ASCII")`
(NUL bytes removed from both ends, then strict ASCII decode). -/
def header (byte_data : Bytes) : Option Bytes :=
  decodeASCII (stripEnds (fun b => b == 0) (pySlice byte_data 0 80))

/-- `BinarySTL.ntriangles`: `bytes_to_uint(byte_data[80:84])`. -/
def ntriangles (byte_data : Bytes) : Nat :=
  ByteConversion.bytes_to_uint (pySlice byte_data 80 84)

/-- `BinarySTL.triangles`: one `BinarySTLTriangle(byte_data[i:i+50])` per
`i in range(84, len(byte_data), 50)`; a triangle is represented by its
`byte_data` slice. -/
def triangles (byte_data : Bytes) : List Bytes :=
  (pyRange 84 byte_data.length 50).map (fun i => pySlice byte_data i (i + 50))

end BinarySTL

/-- Python whitespace characters (the ASCII ones; `str.strip()` and
`str.split()` use them). -/
def pyIsSpace (c : Char) : Bool :=
  c == ' ' || c == '\t' || c == '\n' || c == '\r' || c == '\x0b' || c == '\x0c'

/-- `str.strip()` with no argument: whitespace removed from both ends. -/
def pyStrip (s : PyStr) : PyStr :=
  stripEnds pyIsSpace s

/-- `str.strip(chars)`: every character CONTAINED IN `chars` (a character
set, not a substring) removed from both ends. -/
def pyStripChars (cs : PyStr) (s : PyStr) : PyStr :=
  stripEnds (fun c => cs.contains c) s

/-- `str.split` with separator a newline: the list of segments between
newline characters, empty segments kept; never empty. -/
def splitNewline : PyStr → List PyStr
  | [] => [[]]
  | c :: rest =>
    if c = '\n' then [] :: splitNewline rest
    else
      match splitNewline rest with
      | [] => [[c]]
      | h :: t => (c :: h) :: t

/-- `str.split()` with no argument: maximal runs of non-whitespace
characters, whitespace-only input giving the empty list. -/
def pySplitWs : PyStr → List PyStr
  | [] => []
  | c :: rest =>
    if pyIsSpace c then pySplitWs rest
    else
      match rest, pySplitWs rest with
      | d :: _, w :: ws => if pyIsSpace d then [c] :: w :: ws else (c :: w) :: ws
      | _, _ => [[c]]

/-- `str.startswith(pat)`: the first argument is the pattern. -/
def pyStartswith : PyStr → PyStr → Bool
  | [], _ => true
  | _ :: _, [] => false
  | p :: ps, c :: cs => p == c && pyStartswith ps cs

/-- `str.endswith(pat)`: the first argument is the pattern. -/
def pyEndswith (p s : PyStr) : Bool :=
  pyStartswith p.reverse s.reverse

/-- `str.lower()`; the repository only applies it to ASCII data, where
`Char.toLower` agrees with Python. -/
def pyLowerStr (s : PyStr) : PyStr :=
  s.map Char.toLower

/-- `str.upper()`; the repository only applies it to ASCII data, where
`Char.toUpper` agrees with Python. -/
def pyUpperStr (s : PyStr) : PyStr :=
  s.map Char.toUpper

/-- An ASCII decimal digit. -/
def isDigitChar (c : Char) : Bool :=
  '0' ≤ c && c ≤ '9'

/-- Value of an ASCII digit. -/
def digitVal (c : Char) : Nat :=
  c.toNat - 48

/-- After one digit, Python float syntax allows digits and single
underscores that must be followed by a digit. -/
def digitsTailOk : PyStr → Bool
  | [] => true
  | '_' :: rest =>
    match rest with
    | [] => false
    | d :: ds => isDigitChar d && digitsTailOk ds
  | c :: rest => isDigitChar c && digitsTailOk rest

/-- A nonempty digit group of Python float syntax: digits with optional
single underscores strictly between digits. -/
def digitGroupOk : PyStr → Bool
  | [] => false
  | c :: rest => isDigitChar c && digitsTailOk rest

/-- Numeric value of a digit group, underscores skipped. -/
def digitsValue (s : PyStr) : Nat :=
  s.foldl (fun acc c => if c == '_' then acc else acc * 10 + digitVal c) 0

/-- Number of actual digits in a digit group. -/
def ndigits (s : PyStr) : Nat :=
  (s.filter isDigitChar).length

/-- Split a list at the first element satisfying `p`: the part before it
and, when found, the part after it. -/
def splitAtFirst {α : Type} (p : α → Bool) : List α → List α × Option (List α)
  | [] => ([], none)
  | c :: cs =>
    if p c then ([], some cs)
    else
      match splitAtFirst p cs with
      | (before, rest) => (c :: before, rest)

/-- Result of Python `float(...)`: a finite value (represented by its
exact decimal value; the claims never compare it with binary-parsed bit
patterns, so IEEE rounding is abstracted away), an infinity, or a NaN. -/
inductive PyFloatVal where
  | num (q : Rat)
  | posInf
  | negInf
  | nan
deriving DecidableEq

/-- Mantissa part of Python float syntax: an optional integer digit
group, an optional dot, an optional fraction digit group, at least one
digit overall. -/
def parseMantissa (s : PyStr) : Option Rat :=
  match splitAtFirst (fun c => c == '.') s with
  | (ip, none) => if digitGroupOk ip then some (digitsValue ip : Rat) else none
  | (ip, some fp) =>
    if (ip.isEmpty || digitGroupOk ip) && (fp.isEmpty || digitGroupOk fp) &&
        !(ip.isEmpty && fp.isEmpty) then
      some ((digitsValue ip : Rat) + (digitsValue fp : Rat) / (10 : Rat) ^ ndigits fp)
    else none

/-- Exponent part of Python float syntax: optional sign, digit group. -/
def parseExp (s : PyStr) : Option Int :=
  match s with
  | '+' :: rest => if digitGroupOk rest then some (digitsValue rest : Int) else none
  | '-' :: rest => if digitGroupOk rest then some (-(digitsValue rest : Int)) else none
  | rest => if digitGroupOk rest then some (digitsValue rest : Int) else none

/-- Python `float(s)`: surrounding whitespace allowed, optional sign,
then `inf`/`infinity`/`nan` case-insensitively or a decimal literal with
optional exponent; `none` is a raised `ValueError`. -/
def pyFloat (s : PyStr) : Option PyFloatVal :=
  let t := pyStrip s
  let su : Bool × PyStr :=
    match t with
    | '+' :: rest => (false, rest)
    | '-' :: rest => (true, rest)
    | rest => (false, rest)
  let neg := su.1
  let u := su.2
  let low := pyLowerStr u
  if low = ("inf").toList || low = ("infinity").toList then
    some (if neg then PyFloatVal.negInf else PyFloatVal.posInf)
  else if low = ("nan").toList then some PyFloatVal.nan
  else
    match splitAtFirst (fun c => c == 'e' || c == 'E') u with
    | (m, erest) =>
      let expv : Option Int :=
        match erest with
        | none => some 0
        | some es => parseExp es
      match parseMantissa m, expv with
      | some q, some e =>
        some (PyFloatVal.num ((if neg then -q else q) * (10 : Rat) ^ e))
      | _, _ => none

namespace ASCIISTLTriangle

/-- `ASCIISTLTriangle.normal`: floats of
`self.lines[1].strip("facet normal").strip().split()`; `lines[1]` raises
(`none`) when the record has fewer than two lines. -/
def normal (lines : List PyStr) : Option (List PyFloatVal) :=
  match lines[1]? with
  | none => none
  | some l =>
    optList ((pySplitWs (pyStrip (pyStripChars (("facet normal").toList) l))).map pyFloat)

/-- `ASCIISTLTriangle.vertices`: floats of
`line.strip("vertex").strip().split()` for `line in self.lines[2:5]`. -/
def vertices (lines : List PyStr) : Option (List (List PyFloatVal)) :=
  optList ((pySlice lines 2 5).map
    (fun line =>
      optList ((pySplitWs (pyStrip (pyStripChars (("vertex").toList) line))).map pyFloat)))

end ASCIISTLTriangle

namespace ASCIISTL

/-- `ASCIISTL.lines`: `ascii_data.split("\n")`; never empty, so the
`lines[0]` read below never raises. -/
def lines (ascii_data : PyStr) : List PyStr :=
  splitNewline ascii_data

/-- `ASCIISTL.header`: `self.lines[0].strip("solid").strip()`. -/
def header (ascii_data : PyStr) : PyStr :=
  pyStrip (pyStripChars (("solid").toList) ((lines ascii_data).getD 0 []))

/-- `ASCIISTL.triangles`: for each index `i` whose line satisfies
`line.strip().startswith("facet normal")`, the record `self.lines[i:i+5]`. -/
def triangles (ascii_data : PyStr) : List (List PyStr) :=
  (List.range (lines ascii_data).length).filterMap (fun i =>
    if pyStartswith (("facet normal").toList) (pyStrip ((lines ascii_data).getD i [])) then
      some (pySlice (lines ascii_data) i (i + 5))
    else none)

end ASCIISTL

/-- The four `exit(1)` sites of `InputHandler.arguments`'s setter, in
source order. -/
inductive ExitReason where
  | usage
  | missingFile
  | badExtension
  | badMode
deriving DecidableEq

namespace InputHandler

/-- The `InputHandler.arguments` setter: `exit(1)` (modelled as
`Except.error` naming the exit site) unless exactly two arguments are
given, `os.path.isfile(arguments[0])` holds (the file system is the
`isfile` parameter), `arguments[0].lower().endswith(".stl")`, and
`arguments[1].upper()` is one of `STLB` and `STLA`. -/
def setArguments (isfile : PyStr → Bool) (arguments : List PyStr) :
    Except ExitReason (List PyStr) :=
  if arguments.length ≠ 2 then Except.error ExitReason.usage
  else if isfile (arguments.getD 0 []) = false then Except.error ExitReason.missingFile
  else if pyEndswith ((".stl").toList) (pyLowerStr (arguments.getD 0 [])) = false then
    Except.error ExitReason.badExtension
  else if ([("STLB").toList, ("STLA").toList].contains (pyUpperStr (arguments.getD 1 []))) = false then
    Except.error ExitReason.badMode
  else Except.ok arguments

/-- `InputHandler.is_binary`: `self.arguments[1].upper() == "STLB"`. -/
def is_binary (arguments : List PyStr) : Bool :=
  pyUpperStr (arguments.getD 1 []) == ("STLB").toList

/-- `InputHandler.is_ascii`: `self.arguments[1].upper() == "STLA"`. -/
def is_ascii (arguments : List PyStr) : Bool :=
  pyUpperStr (arguments.getD 1 []) == ("STLA").toList

end InputHandler

/-- Spec-side formulation for C5: the 32-bit little-endian word at byte
offset `k` of a record. -/
def le32 (r : Bytes) (k : Nat) : Nat :=
  r.getD k 0 + 256 * r.getD (k + 1) 0 + 65536 * r.getD (k + 2) 0 +
    16777216 * r.getD (k + 3) 0

/-- Spec-side formulation for C4: trim ONLY the trailing NUL bytes, as
the claim's words describe. -/
def trimTrailingNulOnly (l : Bytes) : Bytes :=
  (l.reverse.dropWhile (fun b => b == 0)).reverse

/-- Concrete buffer for the C1 witness: the count field at offset 80
declares 7 triangles, the byte length supports exactly 5. -/
def c1Data : Bytes := List.replicate 80 0 ++ [7, 0, 0, 0] ++ List.replicate 250 3

/-- Concrete buffer for C4: exactly 80 bytes, a leading NUL byte before
the letter `A`, NUL padding after it. -/
def c4Data : Bytes := 0 :: 65 :: List.replicate 78 0

/-- Concrete ASCII STL input for C2: one facet in the exact layout shown
in the module docstring of `conversion.py` (indented body lines). -/
def c2Ascii : PyStr :=
  ("solid demo\n    facet normal 0 0 1\n        outer loop\n            vertex 0 0 0\n            vertex 1 0 0\n            vertex 0 1 0\n        endloop\n    endfacet\nendsolid demo").toList

/-- Concrete 50-byte record for the C5 witness: bytes 0, 1, ..., 49. -/
def c5Record : Bytes :=
  [0, 1, 2, 3, 4, 5, 6, 7, 8, 9, 10, 11, 12, 13, 14, 15, 16, 17, 18, 19,
   20, 21, 22, 23, 24, 25, 26, 27, 28, 29, 30, 31, 32, 33, 34, 35, 36, 37,
   38, 39, 40, 41, 42, 43, 44, 45, 46, 47, 48, 49]

/- Helper lemmas about the binary reader. -/

theorem pyRange_length (a b step : Nat) :
    (pyRange a b step).length = (b - a + step - 1) / step := by
  simp [pyRange]

theorem pyRange_getElem? (a b step i : Nat) (h : i < (b - a + step - 1) / step) :
    (pyRange a b step)[i]? = some (a + i * step) := by
  unfold pyRange
  rw [List.getElem?_map, List.getElem?_range h]
  rfl

theorem triangles_length (data : Bytes) :
    (BinarySTL.triangles data).length = (data.length - 84 + 49) / 50 := by
  simp [BinarySTL.triangles, pyRange]

theorem triangles_getElem? (data : Bytes) (i : Nat)
    (h : i < (data.length - 84 + 49) / 50) :
    (BinarySTL.triangles data)[i]? =
      some (pySlice data (84 + 50 * i) (84 + 50 * i + 50)) := by
  have h50 : i < (data.length - 84 + 50 - 1) / 50 := by omega
  unfold BinarySTL.triangles
  rw [List.getElem?_map, pyRange_getElem? 84 data.length 50 i h50,
    Nat.mul_comm]
  rfl

/-- C1: a binary buffer of length exactly `84 + 50*n` yields exactly `n`
parsed triangles, taken from the consecutive 50-byte records starting at
offset 84, independently of the 32-bit count stored at offset 80 (no part
of the statement constrains bytes 80..83). -/
theorem binary_triangle_count_from_length (data : Bytes) (n : Nat)
    (h : data.length = 84 + 50 * n) :
    (BinarySTL.triangles data).length = n ∧
    ∀ i, i < n → (BinarySTL.triangles data)[i]? =
      some (pySlice data (84 + 50 * i) (84 + 50 * i + 50)) := by
  constructor
  · rw [triangles_length, h]
    omega
  · intro i hi
    exact triangles_getElem? data i (by omega)

set_option maxRecDepth 10000 in
/-- C1 witness: a buffer of length `84 + 50*5` whose declared count is 7
still yields exactly 5 parsed triangles. -/
theorem binary_triangle_count_from_length_witness :
    BinarySTL.ntriangles c1Data = 7 ∧ (BinarySTL.triangles c1Data).length = 5 :=
  ⟨by decide, (binary_triangle_count_from_length c1Data 5 (by decide)).1⟩

/- Decomposition of Python strip into removed ends and kept core. -/

theorem dropWhile_decomp {α : Type} (p : α → Bool) (l : List α) :
    ∃ a, l = a ++ l.dropWhile p ∧ (∀ x ∈ a, p x = true) ∧
      ∀ c, (l.dropWhile p).head? = some c → p c = false := by
  induction l with
  | nil => exact ⟨[], rfl, by simp, by simp⟩
  | cons x t ih =>
    by_cases hp : p x = true
    · obtain ⟨a, h1, h2, h3⟩ := ih
      have hd : (x :: t).dropWhile p = t.dropWhile p := by
        simp [List.dropWhile_cons, hp]
      refine ⟨x :: a, ?_, ?_, ?_⟩
      · rw [hd, List.cons_append, ← h1]
      · intro y hy
        rcases List.mem_cons.mp hy with rfl | hy
        · exact hp
        · exact h2 y hy
      · rw [hd]; exact h3
    · have hp' : p x = false := by simpa using hp
      have hd : (x :: t).dropWhile p = x :: t := by
        simp [List.dropWhile_cons, hp']
      refine ⟨[], by rw [hd, List.nil_append], by simp, ?_⟩
      rw [hd]
      intro c hc
      simp only [List.head?_cons, Option.some_inj] at hc
      rw [← hc]
      exact hp'

theorem stripEnds_decomp {α : Type} (p : α → Bool) (l : List α) :
    ∃ a b, l = a ++ stripEnds p l ++ b ∧ (∀ x ∈ a, p x = true) ∧
      (∀ x ∈ b, p x = true) ∧
      (∀ c, (stripEnds p l).head? = some c → p c = false) ∧
      (∀ c, (stripEnds p l).getLast? = some c → p c = false) := by
  obtain ⟨a, h1, h2, h3⟩ := dropWhile_decomp p l
  obtain ⟨a2, g1, g2, g3⟩ := dropWhile_decomp p (l.dropWhile p).reverse
  have hm : l.dropWhile p = stripEnds p l ++ a2.reverse := by
    conv_lhs => rw [← List.reverse_reverse (l.dropWhile p), g1]
    rw [List.reverse_append]
    rfl
  refine ⟨a, a2.reverse, ?_, h2, ?_, ?_, ?_⟩
  · rw [List.append_assoc, ← hm]
    exact h1
  · intro x hx
    exact g2 x (List.mem_reverse.mp hx)
  · intro c hc
    refine h3 c ?_
    rw [hm]
    rcases hse : stripEnds p l with _ | ⟨y, ys⟩
    · rw [hse] at hc
      simp at hc
    · rw [hse] at hc
      simp only [List.head?_cons, Option.some_inj] at hc
      simp [hc]
  · intro c hc
    have hh : ((l.dropWhile p).reverse.dropWhile p).head? = some c := by
      have : stripEnds p l = ((l.dropWhile p).reverse.dropWhile p).reverse := rfl
      rw [this, List.getLast?_reverse] at hc
      exact hc
    exact g3 c hh

set_option maxRecDepth 10000 in
/-- C4 counterexample: on a buffer whose first 80 bytes begin with a NUL
byte followed by the letter `A`, the parsed header drops the LEADING NUL
too; the claim's trailing-only trim would keep it. -/
theorem header_keeps_leading_nul_refuted :
    BinarySTL.header c4Data = some [65] ∧
    BinarySTL.decodeASCII (trimTrailingNulOnly (pySlice c4Data 0 80)) = some [0, 65] :=
  ⟨by decide, by decide⟩

/-- C4 as amended: the parsed header equals the first 80 bytes with NUL
bytes trimmed from BOTH ends (leading NUL bytes are removed as well),
decoded as strict ASCII: the 80-byte prologue splits as NUL run ++ core
++ NUL run with the core not starting or ending in NUL, and the header is
the ASCII decode of that core. -/
theorem header_strips_nuls_both_ends (data : Bytes) (_h : 80 ≤ data.length) :
    ∃ a core b, pySlice data 0 80 = a ++ core ++ b ∧
      (∀ x ∈ a, x = 0) ∧ (∀ x ∈ b, x = 0) ∧
      (∀ c, core.head? = some c → c ≠ 0) ∧
      (∀ c, core.getLast? = some c → c ≠ 0) ∧
      BinarySTL.header data = BinarySTL.decodeASCII core := by
  obtain ⟨a, b, h1, h2, h3, h4, h5⟩ :=
    stripEnds_decomp (fun x => x == 0) (pySlice data 0 80)
  refine ⟨a, stripEnds (fun x => x == 0) (pySlice data 0 80), b, h1, ?_, ?_, ?_, ?_, rfl⟩
  · intro x hx; simpa using h2 x hx
  · intro x hx; simpa using h3 x hx
  · intro c hc; simpa using h4 c hc
  · intro c hc; simpa using h5 c hc

set_option maxRecDepth 10000 in
/-- C4 witness: the amended statement at the concrete 80-byte buffer. -/
theorem header_strips_nuls_both_ends_witness :
    ∃ a core b, pySlice c4Data 0 80 = a ++ core ++ b ∧
      (∀ x ∈ a, x = 0) ∧ (∀ x ∈ b, x = 0) ∧
      (∀ c, core.head? = some c → c ≠ 0) ∧
      (∀ c, core.getLast? = some c → c ≠ 0) ∧
      BinarySTL.header c4Data = BinarySTL.decodeASCII core :=
  header_strips_nuls_both_ends c4Data (by decide)

/-- C9: when the NUL-stripped first 80 bytes contain any byte value of at
least 128, the header property raises a strict-ASCII decoding error
instead of returning a header string. -/
theorem header_fails_on_nonascii (data : Bytes) (b : Nat)
    (hb : b ∈ stripEnds (fun x => x == 0) (pySlice data 0 80))
    (h128 : 128 ≤ b) :
    BinarySTL.header data = none := by
  have hno : ¬ ((stripEnds (fun x => x == 0) (pySlice data 0 80)).all
      (fun v => v < 128) = true) := by
    intro hall
    rw [List.all_eq_true] at hall
    have hbb := hall b hb
    simp only [decide_eq_true_eq] at hbb
    omega
  simp only [BinarySTL.header, BinarySTL.decodeASCII, if_neg hno]

set_option maxRecDepth 10000 in
/-- C9 witness: a buffer of 80 bytes of value 200 makes the header
property fail. -/
theorem header_fails_on_nonascii_witness :
    BinarySTL.header (List.replicate 80 200) = none :=
  header_fails_on_nonascii (List.replicate 80 200) 200 (by decide) (by decide)

/- Structure of the parsed triangle list for arbitrary byte lengths. -/

theorem byte_coord_some_of_length12 (l : Bytes) (h : l.length = 12) :
    ∃ v, ByteConversion.byte_coord_to_real32 l = some v := by
  unfold ByteConversion.byte_coord_to_real32
  rw [h, (by decide : pyRange 0 12 4 = [0, 4, 8])]
  have h0 : (pySlice l 0 4).length = 4 := by simp [pySlice]; omega
  have h4 : (pySlice l 4 8).length = 4 := by simp [pySlice]; omega
  have h8 : (pySlice l 8 12).length = 4 := by simp [pySlice]; omega
  simp [optList, ByteConversion.bytes_to_real32, h0, h4, h8]

theorem record_fields_some_of_len50 (t : Bytes) (h : t.length = 50) :
    BinarySTLTriangle.normal t ≠ none ∧ BinarySTLTriangle.vertices t ≠ none := by
  constructor
  · obtain ⟨v, hv⟩ :=
      byte_coord_some_of_length12 (pySlice t 0 12) (by simp [pySlice]; omega)
    unfold BinarySTLTriangle.normal
    rw [hv]
    simp
  · unfold BinarySTLTriangle.vertices
    rw [(by decide : pyRange 12 48 12 = [12, 24, 36])]
    obtain ⟨v1, hv1⟩ :=
      byte_coord_some_of_length12 (pySlice t 12 24) (by simp [pySlice]; omega)
    obtain ⟨v2, hv2⟩ :=
      byte_coord_some_of_length12 (pySlice t 24 36) (by simp [pySlice]; omega)
    obtain ⟨v3, hv3⟩ :=
      byte_coord_some_of_length12 (pySlice t 36 48) (by simp [pySlice]; omega)
    simp [optList, hv1, hv2, hv3]

theorem triangles_last_short (data : Bytes) (hgt : 84 < data.length)
    (h : ∀ n : Nat, data.length ≠ 84 + 50 * n) :
    ∃ t, (BinarySTL.triangles data).getLast? = some t ∧ t.length < 50 := by
  have hne : data.length ≠ 84 + 50 * ((data.length - 84) / 50) :=
    h ((data.length - 84) / 50)
  have hcount : (BinarySTL.triangles data).length = (data.length - 84 + 49) / 50 :=
    triangles_length data
  have hlast := triangles_getElem? data ((data.length - 84 + 49) / 50 - 1) (by omega)
  refine ⟨pySlice data (84 + 50 * ((data.length - 84 + 49) / 50 - 1))
    (84 + 50 * ((data.length - 84 + 49) / 50 - 1) + 50), ?_, ?_⟩
  · rw [List.getLast?_eq_getElem?, hcount]
    exact hlast
  · simp only [pySlice, List.length_drop, List.length_take]
    omega

/-- C8: for every byte string whatsoever, the binary reader's triangle
enumeration is total (nothing about it can raise): it yields one record
per 50-byte step from offset 84 to the end, each record being the
corresponding clamped slice of at most 50 bytes; a record of a full 50
bytes always yields a normal and vertices (so a failure can only come
from a float field of a short trailing record); and when the length is
not `84 + 50*n` the final record holds fewer than 50 bytes. -/
theorem binary_reader_never_raises (data : Bytes) :
    (BinarySTL.triangles data).length = (data.length - 84 + 49) / 50 ∧
    (∀ i, i < (data.length - 84 + 49) / 50 →
      (BinarySTL.triangles data)[i]? =
        some (pySlice data (84 + 50 * i) (84 + 50 * i + 50))) ∧
    (∀ t ∈ BinarySTL.triangles data, t.length ≤ 50 ∧
      (t.length = 50 →
        BinarySTLTriangle.normal t ≠ none ∧ BinarySTLTriangle.vertices t ≠ none)) ∧
    ((∀ n : Nat, data.length ≠ 84 + 50 * n) → 84 < data.length →
      ∃ t, (BinarySTL.triangles data).getLast? = some t ∧ t.length < 50) := by
  refine ⟨triangles_length data, fun i hi => triangles_getElem? data i hi, ?_,
    fun h hgt => triangles_last_short data hgt h⟩
  intro t ht
  unfold BinarySTL.triangles at ht
  obtain ⟨j, hj, rfl⟩ := List.mem_map.mp ht
  constructor
  · simp only [pySlice, List.length_drop, List.length_take]
    omega
  · intro h50
    exact record_fields_some_of_len50 _ h50

set_option maxRecDepth 10000 in
/-- C3 counterexample: a buffer of length 83 does not fail — the reader
returns an empty triangle tuple — and a buffer of length 90 does not fail
either — the reader returns one truncated 6-byte record; no
`MalformedInput` error exists anywhere in the code. -/
theorem binary_reader_no_malformed_error_refuted :
    BinarySTL.triangles (List.replicate 83 1) = [] ∧
    BinarySTL.triangles (List.replicate 90 1) = [List.replicate 6 1] :=
  ⟨by decide, by decide⟩

/-- C3 as amended: on a byte length that is not `84 + 50*n` the binary
reader does not signal any error: below 84 bytes it produces an empty
triangle tuple, and otherwise a final truncated record of fewer than 50
bytes, whose float fields are the only thing that can later raise. -/
theorem binary_reader_lenient_on_bad_length (data : Bytes)
    (h : ∀ n : Nat, data.length ≠ 84 + 50 * n) :
    (data.length < 84 → BinarySTL.triangles data = []) ∧
    (84 ≤ data.length →
      ∃ t, (BinarySTL.triangles data).getLast? = some t ∧ t.length < 50) := by
  constructor
  · intro hlt
    have hl := triangles_length data
    rw [(by omega : (data.length - 84 + 49) / 50 = 0)] at hl
    exact List.length_eq_zero.mp hl
  · intro hge
    have hgt : 84 < data.length := by
      have := h 0
      omega
    exact triangles_last_short data hgt h

/-- C3 witness: the amended statement at the concrete length-90 buffer. -/
theorem binary_reader_lenient_on_bad_length_witness :
    ∃ t, (BinarySTL.triangles (List.replicate 90 1)).getLast? = some t ∧
      t.length < 50 :=
  (binary_reader_lenient_on_bad_length (List.replicate 90 1)
    (by intro n; simp; omega)).2 (by decide)

/- Slice arithmetic used for the record layout claim. -/

theorem pySlice_getD (r : Bytes) (a b j : Nat) (hj : a + j < b) :
    (pySlice r a b).getD j 0 = r.getD (a + j) 0 := by
  unfold pySlice
  rw [List.getD_eq_getElem?_getD, List.getD_eq_getElem?_getD, List.getElem?_drop,
    List.getElem?_take, if_pos hj]

theorem bytes_to_real32_at (r : Bytes) (i : Nat) (h : i + 4 ≤ r.length) :
    ByteConversion.bytes_to_real32 (pySlice r i (i + 4)) = some (le32 r i) := by
  have hlen : (pySlice r i (i + 4)).length = 4 := by
    simp [pySlice]
    omega
  unfold ByteConversion.bytes_to_real32 le32
  rw [if_pos hlen, pySlice_getD r i (i + 4) 0 (by omega),
    pySlice_getD r i (i + 4) 1 (by omega), pySlice_getD r i (i + 4) 2 (by omega),
    pySlice_getD r i (i + 4) 3 (by omega)]
  simp

theorem pySlice_pySlice (r : Bytes) (a b i j : Nat) (h : a + j ≤ b) :
    pySlice (pySlice r a b) i j = pySlice r (a + i) (a + j) := by
  unfold pySlice
  rw [List.take_drop, List.take_take, List.drop_drop, Nat.min_eq_left (by omega)]

theorem byte_coord_slice12 (r : Bytes) (a : Nat) (h : a + 12 ≤ r.length) :
    ByteConversion.byte_coord_to_real32 (pySlice r a (a + 12)) =
      some [le32 r a, le32 r (a + 4), le32 r (a + 8)] := by
  unfold ByteConversion.byte_coord_to_real32
  have hlen : (pySlice r a (a + 12)).length = 12 := by
    simp [pySlice]
    omega
  rw [hlen, (by decide : pyRange 0 12 4 = [0, 4, 8])]
  simp only [List.map_cons, List.map_nil]
  rw [pySlice_pySlice r a (a + 12) 0 (0 + 4) (by omega),
    pySlice_pySlice r a (a + 12) 4 (4 + 4) (by omega),
    pySlice_pySlice r a (a + 12) 8 (8 + 4) (by omega),
    (by omega : a + (0 + 4) = (a + 0) + 4), (by omega : a + (4 + 4) = (a + 4) + 4),
    (by omega : a + (8 + 4) = (a + 8) + 4),
    bytes_to_real32_at r (a + 0) (by omega), bytes_to_real32_at r (a + 4) (by omega),
    bytes_to_real32_at r (a + 8) (by omega)]
  simp [optList]

/-- C5: in every 50-byte record the normal is bytes 0..11, the three
vertices are bytes 12..23, 24..35, 36..47, each 12-byte field read as 3
consecutive little-endian 32-bit IEEE-754 singles (represented by their
bit patterns), and the attribute is bytes 48..49 as a little-endian
unsigned 16-bit integer. -/
theorem triangle_record_layout (r : Bytes) (h : r.length = 50) :
    BinarySTLTriangle.normal r = some [le32 r 0, le32 r 4, le32 r 8] ∧
    BinarySTLTriangle.vertices r =
      some [[le32 r 12, le32 r 16, le32 r 20],
            [le32 r 24, le32 r 28, le32 r 32],
            [le32 r 36, le32 r 40, le32 r 44]] ∧
    BinarySTLTriangle.attribute_byte_count r = r.getD 48 0 + 256 * r.getD 49 0 := by
  refine ⟨?_, ?_, ?_⟩
  · have h12 := byte_coord_slice12 r 0 (by omega)
    unfold BinarySTLTriangle.normal
    simpa using h12
  · unfold BinarySTLTriangle.vertices
    rw [(by decide : pyRange 12 48 12 = [12, 24, 36])]
    simp only [List.map_cons, List.map_nil]
    rw [byte_coord_slice12 r 12 (by omega), byte_coord_slice12 r 24 (by omega),
      byte_coord_slice12 r 36 (by omega)]
    simp [optList]
  · unfold BinarySTLTriangle.attribute_byte_count ByteConversion.bytes_to_uint
    have h48 : (pySlice r 48 50).getD 0 0 = r.getD 48 0 := by
      have := pySlice_getD r 48 50 0 (by omega)
      simpa using this
    have h49 : (pySlice r 48 50).getD 1 0 = r.getD 49 0 := by
      have := pySlice_getD r 48 50 1 (by omega)
      simpa using this
    have hlen : (pySlice r 48 50).length = 2 := by
      simp [pySlice]
      omega
    rcases hsl : pySlice r 48 50 with _ | ⟨x, _ | ⟨y, _ | ⟨z, zs⟩⟩⟩ <;>
      rw [hsl] at hlen <;> simp at hlen
    rw [hsl] at h48 h49
    simp only [List.getD_cons_zero, List.getD_cons_succ] at h48 h49
    simp [h48, h49]

/-- C5 witness: the layout statement at the record whose byte at offset
`i` is `i`. -/
theorem triangle_record_layout_witness :
    BinarySTLTriangle.normal c5Record =
      some [le32 c5Record 0, le32 c5Record 4, le32 c5Record 8] ∧
    BinarySTLTriangle.vertices c5Record =
      some [[le32 c5Record 12, le32 c5Record 16, le32 c5Record 20],
            [le32 c5Record 24, le32 c5Record 28, le32 c5Record 32],
            [le32 c5Record 36, le32 c5Record 40, le32 c5Record 44]] ∧
    BinarySTLTriangle.attribute_byte_count c5Record =
      c5Record.getD 48 0 + 256 * c5Record.getD 49 0 :=
  triangle_record_layout c5Record (by decide)

set_option maxRecDepth 100000 in
/-- C2 refuting evaluation: on the exact one-facet ASCII layout shown in
the module docstring of `conversion.py`, the scanner finds the facet, but
the record's normal parse raises (it reads record line 1, the
`outer loop` line, and `float` fails on the token `uter` left by the
character-set strip), and the vertex parse raises as well (the indented
`vertex` lines keep their keyword because `str.strip` removes a character
set, not a prefix, so `float` fails on the token `vertex`). -/
theorem ascii_triangle_parse_raises :
    (ASCIISTL.triangles c2Ascii).length = 1 ∧
    ASCIISTLTriangle.normal ((ASCIISTL.triangles c2Ascii).getD 0 []) = none ∧
    ASCIISTLTriangle.vertices ((ASCIISTL.triangles c2Ascii).getD 0 []) = none :=
  ⟨by decide, by decide, by decide⟩

/-- C6 counterexample: for the first line `solid lids` the code returns
an empty header, not the header text `lids`: `str.strip("solid")` removes
the characters s, o, l, i, d from both ends, eating the header text
itself. -/
theorem ascii_header_text_unchanged_refuted :
    ASCIISTL.header (("solid lids").toList) = [] ∧
    ("lids").toList ≠ ([] : PyStr) :=
  ⟨by decide, by decide⟩

/-- C6 as amended: the parsed header is the first line with all leading
and trailing characters drawn from the set s, o, l, i, d removed (not
just a leading `solid` token), then surrounding whitespace stripped; the
kept core neither starts nor ends with a character of that set. -/
theorem ascii_header_charstrip (s : PyStr) :
    ∃ a core b, (ASCIISTL.lines s).getD 0 [] = a ++ core ++ b ∧
      (∀ c ∈ a, (("solid").toList).contains c = true) ∧
      (∀ c ∈ b, (("solid").toList).contains c = true) ∧
      (∀ c, core.head? = some c → (("solid").toList).contains c = false) ∧
      (∀ c, core.getLast? = some c → (("solid").toList).contains c = false) ∧
      ASCIISTL.header s = pyStrip core := by
  obtain ⟨a, b, h1, h2, h3, h4, h5⟩ :=
    stripEnds_decomp (fun c => (("solid").toList).contains c)
      ((ASCIISTL.lines s).getD 0 [])
  exact ⟨a, stripEnds (fun c => (("solid").toList).contains c)
    ((ASCIISTL.lines s).getD 0 []), b, h1, h2, h3, h4, h5, rfl⟩

/-- C7 counterexample: with an existing input file `model.txt` and the
valid mode `STLB`, the tool still exits before the codec — the `.stl`
extension check is enforced with `exit(1)`, not merely recommended. -/
theorem extension_enforced_refuted :
    InputHandler.setArguments (fun _ => true)
      [("model.txt").toList, ("STLB").toList] =
      Except.error ExitReason.badExtension ∧
    (fun (_ : PyStr) => true) (("model.txt").toList) = true ∧
    ([("STLB").toList, ("STLA").toList].contains
      (pyUpperStr (("STLB").toList))) = true :=
  ⟨rfl, rfl, by decide⟩

/-- C7 as amended: with exactly two arguments the tool terminates with a
non-zero status before invoking the codec exactly when the input path is
not an existing file, or its lowercased name does not end in `.stl`
(extension IS enforced), or the mode token is not STLB/STLA
case-insensitively. -/
theorem tool_exit_conditions (isfile : PyStr → Bool) (args : List PyStr)
    (h : args.length = 2) :
    (∃ e, InputHandler.setArguments isfile args = Except.error e) ↔
      (isfile (args.getD 0 []) = false ∨
       pyEndswith ((".stl").toList) (pyLowerStr (args.getD 0 [])) = false ∨
       ([("STLB").toList, ("STLA").toList].contains
         (pyUpperStr (args.getD 1 []))) = false) := by
  unfold InputHandler.setArguments
  rw [if_neg (by omega)]
  by_cases h1 : isfile (args.getD 0 []) = false
  · rw [if_pos h1]
    exact ⟨fun _ => Or.inl h1, fun _ => ⟨ExitReason.missingFile, rfl⟩⟩
  · rw [if_neg h1]
    by_cases h2 : pyEndswith ((".stl").toList) (pyLowerStr (args.getD 0 [])) = false
    · rw [if_pos h2]
      exact ⟨fun _ => Or.inr (Or.inl h2), fun _ => ⟨ExitReason.badExtension, rfl⟩⟩
    · rw [if_neg h2]
      by_cases h3 : ([("STLB").toList, ("STLA").toList].contains
          (pyUpperStr (args.getD 1 []))) = false
      · rw [if_pos h3]
        exact ⟨fun _ => Or.inr (Or.inr h3), fun _ => ⟨ExitReason.badMode, rfl⟩⟩
      · rw [if_neg h3]
        constructor
        · rintro ⟨e, he⟩
          exact Except.noConfusion he
        · rintro (hc | hc | hc)
          · exact absurd hc h1
          · exact absurd hc h2
          · exact absurd hc h3

/-- C7 witness: the amended statement applied with an existing `.stl`
file and the invalid mode token `XYZ`: the tool exits. -/
theorem tool_exit_conditions_witness :
    ∃ e, InputHandler.setArguments (fun _ => true)
      [("a.stl").toList, ("XYZ").toList] = Except.error e :=
  (tool_exit_conditions (fun _ => true) [("a.stl").toList, ("XYZ").toList]
    (by decide)).mpr (Or.inr (Or.inr (by decide)))

/-- C10: whenever the argument setter completes without exiting, the
second argument uppercased is exactly STLB or STLA, so exactly one of
`is_binary` and `is_ascii` is true. -/
theorem mode_exactly_one_of (isfile : PyStr → Bool) (args res : List PyStr)
    (h : InputHandler.setArguments isfile args = Except.ok res) :
    (pyUpperStr (res.getD 1 []) = ("STLB").toList ∨
     pyUpperStr (res.getD 1 []) = ("STLA").toList) ∧
    InputHandler.is_binary res ≠ InputHandler.is_ascii res := by
  unfold InputHandler.setArguments at h
  by_cases h0 : args.length ≠ 2
  · rw [if_pos h0] at h
    exact Except.noConfusion h
  rw [if_neg h0] at h
  by_cases h1 : isfile (args.getD 0 []) = false
  · rw [if_pos h1] at h
    exact Except.noConfusion h
  rw [if_neg h1] at h
  by_cases h2 : pyEndswith ((".stl").toList) (pyLowerStr (args.getD 0 [])) = false
  · rw [if_pos h2] at h
    exact Except.noConfusion h
  rw [if_neg h2] at h
  by_cases h3 : ([("STLB").toList, ("STLA").toList].contains
      (pyUpperStr (args.getD 1 []))) = false
  · rw [if_pos h3] at h
    exact Except.noConfusion h
  rw [if_neg h3] at h
  rw [Except.ok.injEq] at h
  subst h
  have h3' : ([("STLB").toList, ("STLA").toList].contains
      (pyUpperStr (args.getD 1 []))) = true := by
    rcases hb : ([("STLB").toList, ("STLA").toList].contains
      (pyUpperStr (args.getD 1 []))) with _ | _
    · exact absurd hb h3
    · rfl
  simp only [List.contains_cons, List.contains_nil, Bool.or_eq_true,
    beq_iff_eq, Bool.or_false] at h3'
  rcases h3' with hu | hu
  · refine ⟨Or.inl hu, ?_⟩
    unfold InputHandler.is_binary InputHandler.is_ascii
    rw [hu]
    decide
  · refine ⟨Or.inr hu, ?_⟩
    unfold InputHandler.is_binary InputHandler.is_ascii
    rw [hu]
    decide

/-- C10 witness: the invariant at the concrete accepted invocation with
mode `stlb`. -/
theorem mode_exactly_one_of_witness :
    InputHandler.is_binary [("a.stl").toList, ("stlb").toList] ≠
      InputHandler.is_ascii [("a.stl").toList, ("stlb").toList] :=
  (mode_exactly_one_of (fun _ => true) [("a.stl").toList, ("stlb").toList]
    [("a.stl").toList, ("stlb").toList] rfl).2

end STLC
